import Mathlib

/-!
Verification of the LewdArchive archival pipeline against its specification.

The Go source is shallowly embedded: pure helpers become Lean functions,
stateful services become explicit state passing, and external collaborators
(SQLite, the Chibisafe HTTP API, the filesystem, the clock) become oracle
parameters whose outcomes are quantified over.
-/

namespace LewdArchive

/-! ## Character classification (model of Go `unicode` package)

Go's `unicode.IsLetter` / `unicode.IsDigit` test the Unicode general
categories L and Nd.  The model below is faithful on the Latin-1 range
(code points below 0x100): ASCII letters, and the Latin-1 letters
U+00AA, U+00B5, U+00BA, U+00C0–U+00D6, U+00D8–U+00F6, U+00F8–U+00FF;
the only Nd digits below 0x100 are ASCII 0-9.  Code points at 0x100 and
above are approximated as letters and non-digits; no theorem in this file
depends on the classification outside Latin-1, since every statement uses
the same predicate on both sides and every concrete input stays in Latin-1.
-/

/-- Model of Go `unicode.IsLetter` (general category L), faithful below 0x100. -/
def goIsLetter (c : Char) : Bool :=
  let n := c.toNat
  if n < 0x100 then
    (0x41 ≤ n && n ≤ 0x5A) || (0x61 ≤ n && n ≤ 0x7A) ||
    n == 0xAA || n == 0xB5 || n == 0xBA ||
    (0xC0 ≤ n && n ≤ 0xD6) || (0xD8 ≤ n && n ≤ 0xF6) || (0xF8 ≤ n)
  else
    true

/-- Model of Go `unicode.IsDigit` (general category Nd), faithful below 0x100. -/
def goIsDigit (c : Char) : Bool :=
  0x30 ≤ c.toNat && c.toNat ≤ 0x39

/-! ## `utils.SanitizeForPath` -/

/-- Transformation applied to one rune by the loop body of `SanitizeForPath`:
keep letters, digits, underscore and hyphen, replace everything else by an
underscore. -/
def sanitizeChar (c : Char) : Char :=
  if goIsLetter c || goIsDigit c || c = '_' || c = '-' then c else '_'

/-- Embedding of `utils.SanitizeForPath`: empty input maps to the literal
"unknown", otherwise each rune is rewritten by `sanitizeChar` (the
`strings.Builder` loop is a map over the rune sequence). -/
def SanitizeForPath (s : String) : String :=
  if s = "" then "unknown"
  else String.mk (s.data.map sanitizeChar)

/-! ## Model of Go `path/filepath` (`Join`, `Clean`, `Ext`) on Unix

`filepath.Join` concatenates the non-empty elements with "/" and then
applies `filepath.Clean`.  `Clean` is modelled at the level of slash-separated
segments: split at every '/', process the segments against a stack (dropping
empty and "." segments, letting ".." pop the previous segment), and re-join.
-/

/-- Split a character list at every '/'.  Mirrors how `Clean` consumes the
path element-by-element; always returns a non-empty list of segments. -/
def splitSlash : List Char → List (List Char)
  | [] => [[]]
  | c :: rest =>
    let r := splitSlash rest
    if c = '/' then [] :: r
    else (c :: r.headD []) :: r.tail

/-- Join segments back with '/' separators (Go `strings.Join(_, "/")`). -/
def joinSlash : List (List Char) → List Char
  | [] => []
  | [x] => x
  | x :: y :: rest => x ++ '/' :: joinSlash (y :: rest)

/-- Whether a character list denotes a rooted (absolute) path (Go checks
`os.IsPathSeparator(path[0])`). -/
def isRootedChars (cs : List Char) : Bool :=
  match cs with
  | [] => false
  | c :: _ => c == '/'

/-- One step of Go `filepath.Clean`'s segment processing: empty and "."
segments are dropped, ".." pops the previous real segment (or is kept at the
front of a relative path, or dropped at the root of an absolute one), and any
other segment is pushed. -/
def cleanStep (rooted : Bool) (stack : List (List Char)) (seg : List Char) :
    List (List Char) :=
  if seg = [] ∨ seg = ['.'] then stack
  else if seg = ['.', '.'] then
    if stack ≠ [] ∧ stack.getLast? ≠ some ['.', '.'] then stack.dropLast
    else if rooted then stack
    else stack ++ [['.', '.']]
  else stack ++ [seg]

/-- Model of Go `filepath.Clean` over the path's character list. -/
def goCleanChars (cs : List Char) : String :=
  let rooted := isRootedChars cs
  let stack := (splitSlash cs).foldl (cleanStep rooted) []
  let body := joinSlash stack
  if rooted then String.mk ('/' :: body)
  else if body = [] then "." else String.mk body

/-- Model of Go `filepath.Join`: drop empty elements, concatenate with "/",
clean the result; all elements empty gives "". -/
def goFilepathJoin (elems : List String) : String :=
  let nonEmpty := elems.filter (fun e => e ≠ "")
  if nonEmpty.isEmpty then ""
  else goCleanChars (joinSlash (nonEmpty.map String.data))

/-! ## Model of `time.Time` as used by the pipeline

Only `Year()` and `Month()` are consumed (by `buildArchivePath`), so a time
is modelled by those two fields. -/

structure GoTime where
  year : Nat
  month : Nat
  deriving DecidableEq, Repr

/-- Decimal digit list of a natural number, most significant first, with a
structural fuel argument bounding the number of divisions (`0` gives the
empty list). -/
def decimalDigitsAux : Nat → Nat → List Char
  | 0, _ => []
  | _, 0 => []
  | fuel + 1, n + 1 =>
    decimalDigitsAux fuel ((n + 1) / 10) ++ [Nat.digitChar ((n + 1) % 10)]

/-- Decimal digit list of a positive natural number (most significant first);
`0` gives the empty list.  The number itself is enough fuel since each step
divides by 10. -/
def decimalDigits (n : Nat) : List Char :=
  decimalDigitsAux n n

/-- Model of Go decimal formatting (`%d` on a non-negative integer). -/
def goItoa (n : Nat) : String :=
  if n = 0 then "0" else String.mk (decimalDigits n)

/-- Model of Go `time.Month.String`: English month names for 1-12, the
`%!Month(n)` placeholder otherwise. -/
def goMonthName (m : Nat) : String :=
  match m with
  | 1 => "January"
  | 2 => "February"
  | 3 => "March"
  | 4 => "April"
  | 5 => "May"
  | 6 => "June"
  | 7 => "July"
  | 8 => "August"
  | 9 => "September"
  | 10 => "October"
  | 11 => "November"
  | 12 => "December"
  | _ => "%!Month(" ++ goItoa m ++ ")"

/-- Model of Go `fmt.Sprintf` with a zero-padded width verb (`%04d`, `%02d`)
on a non-negative integer. -/
def fmtPad (width n : Nat) : String :=
  let s := goItoa n
  String.mk (List.replicate (width - s.length) '0') ++ s

/-! ## `ArchiveService.buildArchivePath` -/

/-- Embedding of `ArchiveService.buildArchivePath`: join the base directory,
"{sanitized author} - {sanitized category}", the zero-padded year, the
zero-padded month number with the month name, and the hash. -/
def buildArchivePath (baseDir author categoryTitle : String)
    (publishedAt : GoTime) (hash : String) : String :=
  let sanitizedAuthor := SanitizeForPath author
  let sanitizedCategory := SanitizeForPath categoryTitle
  let year := fmtPad 4 publishedAt.year
  let month := fmtPad 2 publishedAt.month ++ " - " ++ goMonthName publishedAt.month
  goFilepathJoin
    [baseDir, sanitizedAuthor ++ " - " ++ sanitizedCategory, year, month, hash]

/-- Model of Go `filepath.Ext` search: walk the characters from the end,
stop at a path separator, return the suffix from the last '.' (inclusive).
The first argument is the reversed character list, the second accumulates the
suffix already walked, in forward order. -/
def extSearch : List Char → List Char → Option (List Char)
  | [], _ => none
  | c :: rest, acc =>
    if c = '/' then none
    else if c = '.' then some ('.' :: acc)
    else extSearch rest (c :: acc)

/-- Model of Go `filepath.Ext`: the suffix beginning at the final dot of the
final path element; empty if there is no dot. -/
def goFilepathExt (s : String) : String :=
  match extSearch s.data.reverse [] with
  | some l => String.mk l
  | none => ""

/-- Model of Go lower-casing of one rune, faithful on ASCII (the extension
allow-list and the names compared by this program are ASCII). -/
def goToLowerChar (c : Char) : Char :=
  if 'A' ≤ c ∧ c ≤ 'Z' then Char.ofNat (c.toNat + 32) else c

/-- Model of Go `strings.ToLower`, faithful on ASCII. -/
def goStringToLower (s : String) : String :=
  String.mk (s.data.map goToLowerChar)

/-- Model of Go `strings.EqualFold` (case-insensitive equality), faithful on
ASCII: both sides are folded to lower case and compared. -/
def goEqualFold (a b : String) : Bool :=
  a.data.map goToLowerChar == b.data.map goToLowerChar

/-! ## ChibisafeService

The service talks to a remote HTTP API and to the filesystem; both are
modelled as an oracle environment `ChibiEnv` fixing the outcome of each
outbound call.  The one piece of mutable service state is the lazily cached
`useNetworkStorage` flag.  Side effects (create/search/upload/tag-attach
requests issued) are collected in a `ChibiTrace`. -/

/-- Remote album as decoded from the search response (`model.ChibisafeAlbum`). -/
structure ChibisafeAlbum where
  name : String
  uuid : String
  deriving DecidableEq, Repr

/-- Remote tag as decoded from the search response (`model.ChibisafeTag`). -/
structure ChibisafeTag where
  name : String
  uuid : String
  deriving DecidableEq, Repr

/-- One entry of a directory listing (`os.DirEntry`: name and kind). -/
structure DirEntry where
  name : String
  isDir : Bool
  deriving DecidableEq, Repr

/-- Mutable state of `ChibisafeService`: the cached `useNetworkStorage`
setting (`nil` pointer = not yet fetched). -/
structure ChibiState where
  useNetworkStorage : Option Bool
  deriving DecidableEq, Repr

/-- Immutable configuration of `ChibisafeService`. -/
structure ChibiConfig where
  apiURL : String
  apiKey : String
  deriving DecidableEq, Repr

/-- Oracle outcomes of the service's external collaborators: the remote
search/create/settings endpoints, the directory listing, the two upload
strategies (keyed by upload filename and album uuid) and the tag-attach
endpoint. -/
structure ChibiEnv where
  albumSearchResult : Except String (List ChibisafeAlbum)
  albumCreateResult : Except String String
  tagSearchResult : Except String (List ChibisafeTag)
  tagCreateResult : Except String String
  readDirResult : Except String (List DirEntry)
  settingsFetchResult : Except String Bool
  uploadDirectResult : String → String → Except String String
  uploadS3Result : String → String → Except String String
  addTagResult : String → String → Except String Unit

/-- Trace of the outbound requests a call issued, in order per kind. -/
structure ChibiTrace where
  albumSearches : List String
  albumCreates : List String
  tagSearches : List String
  tagCreates : List String
  uploads : List String
  tagAttaches : List (String × String)
  deriving DecidableEq, Repr

/-- Trace with no requests. -/
def ChibiTrace.empty : ChibiTrace :=
  { albumSearches := [], albumCreates := [], tagSearches := [], tagCreates := [],
    uploads := [], tagAttaches := [] }

/-- Embedding of `ChibisafeService.IsConfigured`. -/
def IsConfigured (cfg : ChibiConfig) : Bool :=
  cfg.apiURL != "" && cfg.apiKey != ""

/-- Embedding of `ChibisafeService.getSettings`: return the cached value if
present; otherwise fetch, caching only on success.  The third component
records whether the network fetch was attempted. -/
def getSettings (st : ChibiState) (env : ChibiEnv) :
    Except String Bool × ChibiState × Bool :=
  match st.useNetworkStorage with
  | some b => (.ok b, st, false)
  | none =>
    match env.settingsFetchResult with
    | .error e => (.error ("failed to get settings: " ++ e), st, true)
    | .ok b => (.ok b, { useNetworkStorage := some b }, true)

/-- Upload strategy selected for one file. -/
inductive UploadStrategy where
  | direct
  | s3
  deriving DecidableEq, Repr

/-- Embedding of `ChibisafeService.uploadFile`: query the settings; on
failure fall back to the direct strategy, otherwise branch on
`UseNetworkStorage`.  The strategy actually executed is returned alongside. -/
def uploadFile (st : ChibiState) (env : ChibiEnv) (filename albumUUID : String) :
    Except String String × ChibiState × UploadStrategy :=
  match getSettings st env with
  | (.error _, st2, _) => (env.uploadDirectResult filename albumUUID, st2, .direct)
  | (.ok useS3, st2, _) =>
    if useS3 then (env.uploadS3Result filename albumUUID, st2, .s3)
    else (env.uploadDirectResult filename albumUUID, st2, .direct)

/-- Embedding of `ChibisafeService.isSupportedFile`: lower-cased extension
against the fixed allow-list. -/
def isSupportedFile (filename : String) : Bool :=
  let ext := goStringToLower (goFilepathExt filename)
  [".jpg", ".jpeg", ".png", ".gif", ".webp", ".bmp", ".tiff", ".svg", ".mp4"].contains ext

/-- Embedding of `ChibisafeService.getOrCreateAlbum`: scan the search result
for the first case-insensitive name match; create only when none matches.
The second component lists the names passed to album-create requests. -/
def getOrCreateAlbum (env : ChibiEnv) (categoryTitle : String) :
    Except String String × List String :=
  match env.albumSearchResult with
  | .error e => (.error e, [])
  | .ok albums =>
    match albums.find? (fun album => goEqualFold album.name categoryTitle) with
    | some album => (.ok album.uuid, [])
    | none => (env.albumCreateResult, [categoryTitle])

/-- Embedding of `ChibisafeService.getOrCreateTag`, same shape as
`getOrCreateAlbum`. -/
def getOrCreateTag (env : ChibiEnv) (author : String) :
    Except String String × List String :=
  match env.tagSearchResult with
  | .error e => (.error e, [])
  | .ok tags =>
    match tags.find? (fun tag => goEqualFold tag.name author) with
    | some tag => (.ok tag.uuid, [])
    | none => (env.tagCreateResult, [author])

/-- Embedding of the per-file loop of `uploadDirectoryFiles`: derive the
upload filename from the sanitized title (suffixing `-{n}` when more than one
file is uploaded), upload, skip the file on failure, and attach the tag only
when both the tag uuid and the returned file uuid are non-empty; a tag-attach
failure is only logged. -/
def uploadLoop (env : ChibiEnv) (albumUUID tagUUID sanitizedTitle : String)
    (total : Nat) :
    List DirEntry → Nat → ChibiState → ChibiTrace → ChibiState × ChibiTrace
  | [], _, st, tr => (st, tr)
  | f :: rest, i, st, tr =>
    let ext := goFilepathExt f.name
    let filename :=
      if total = 1 then sanitizedTitle ++ ext
      else sanitizedTitle ++ "-" ++ goItoa (i + 1) ++ ext
    let r := uploadFile st env filename albumUUID
    let st2 := r.2.1
    let tr2 := { tr with uploads := tr.uploads ++ [filename] }
    match r.1 with
    | .error _ =>
      uploadLoop env albumUUID tagUUID sanitizedTitle total rest (i + 1) st2 tr2
    | .ok fileUUID =>
      if tagUUID ≠ "" ∧ fileUUID ≠ "" then
        let _attach := env.addTagResult fileUUID tagUUID
        uploadLoop env albumUUID tagUUID sanitizedTitle total rest (i + 1) st2
          { tr2 with tagAttaches := tr2.tagAttaches ++ [(fileUUID, tagUUID)] }
      else
        uploadLoop env albumUUID tagUUID sanitizedTitle total rest (i + 1) st2 tr2

/-- Filtering step of `uploadDirectoryFiles`: keep the supported regular
files of the listing, in listing order. -/
def eligibleFiles (entries : List DirEntry) : List DirEntry :=
  entries.filter (fun f => !f.isDir && isSupportedFile f.name)

/-- Title preparation step of `uploadDirectoryFiles` (the empty-string
fallback is unreachable since `SanitizeForPath` never returns ""). -/
def uploadTitle (title : String) : String :=
  let t := SanitizeForPath title
  if t = "" then "unknown" else t

/-- Embedding of `ChibisafeService.uploadDirectoryFiles`: list the directory,
keep the supported regular files in listing order, succeed trivially when none
remain, otherwise run the per-file loop with the sanitized title. -/
def uploadDirectoryFiles (st : ChibiState) (env : ChibiEnv)
    (albumUUID tagUUID title : String) :
    Except String Unit × ChibiState × ChibiTrace :=
  match env.readDirResult with
  | .error e => (.error e, st, ChibiTrace.empty)
  | .ok entries =>
    let supportedFiles := eligibleFiles entries
    if supportedFiles.isEmpty then (.ok (), st, ChibiTrace.empty)
    else
      let r := uploadLoop env albumUUID tagUUID (uploadTitle title) supportedFiles.length
        supportedFiles 0 st ChibiTrace.empty
      (.ok (), r.1, r.2)

/-- Upload filenames the per-file loop derives, written out recursively:
the file at loop index `i` is uploaded as `{title}{ext}` when only one file
is eligible and as `{title}-{i+1}{ext}` otherwise. -/
def uploadNames (T : String) (total : Nat) : List DirEntry → Nat → List String
  | [], _ => []
  | f :: rest, i =>
    (if total = 1 then T ++ goFilepathExt f.name
     else T ++ "-" ++ goItoa (i + 1) ++ goFilepathExt f.name) ::
    uploadNames T total rest (i + 1)

/-- Embedding of `ChibisafeService.UploadFiles`: skip everything when the
service is not configured; resolve the album (fatal on failure) and the tag
(failure degrades to an empty tag uuid), then upload the directory. -/
def UploadFiles (cfg : ChibiConfig) (st : ChibiState) (env : ChibiEnv)
    (archiveDir categoryTitle author title : String) :
    Except String Unit × ChibiState × ChibiTrace :=
  if !(IsConfigured cfg) then (.ok (), st, ChibiTrace.empty)
  else
    match getOrCreateAlbum env categoryTitle with
    | (.error e, creates) =>
      (.error ("failed to get/create album: " ++ e), st,
       { ChibiTrace.empty with albumSearches := [categoryTitle], albumCreates := creates })
    | (.ok albumUUID, creates) =>
      let tagResult := getOrCreateTag env author
      let tagUUID := match tagResult.1 with | .ok u => u | .error _ => ""
      let r := uploadDirectoryFiles st env albumUUID tagUUID title
      (r.1, r.2.1,
       { r.2.2 with albumSearches := [categoryTitle], albumCreates := creates,
                    tagSearches := [author], tagCreates := tagResult.2 })

/-! ## WebhookHandler.processEntry

The dedup store (SQLite `posts` table) is modelled as a list of rows; the
collaborators (store queries, the time parser, the mark-as-read call, the
detached archive task, the Discord notification) become oracle outcomes and
a trace of launched side effects. -/

/-- Feed category from the trigger payload. -/
structure Category where
  id : Int
  title : String
  deriving DecidableEq, Repr

/-- Feed from the trigger payload (the fields `processEntry` consumes). -/
structure Feed where
  id : Int
  siteURL : String
  title : String
  feedURL : String
  category : Category
  deriving DecidableEq, Repr

/-- Entry from the trigger payload (the fields `processEntry` consumes). -/
structure Entry where
  id : Int
  hash : String
  title : String
  url : String
  publishedAt : String
  content : String
  author : String
  deriving DecidableEq, Repr

/-- Persisted row of the `posts` table (`model.Post` as inserted). -/
structure Post where
  siteURL : String
  entryID : Int
  hash : String
  title : String
  url : String
  publishedAt : GoTime
  content : String
  author : String
  categoryID : Int
  categoryTitle : String
  deriving DecidableEq, Repr

/-- The dedup store: the rows of the `posts` table. -/
structure DedupStore where
  posts : List Post
  deriving DecidableEq, Repr

/-- Embedding of `PostRepository.ExistsByHash`
(`SELECT EXISTS(SELECT 1 FROM posts WHERE hash = ?)`). -/
def ExistsByHash (st : DedupStore) (hash : String) : Bool :=
  st.posts.any (fun p => p.hash == hash)

/-- Oracle outcomes of `processEntry`'s collaborators: a store-query error to
inject, the result of `time.Parse` (`none` = parse failure) and the current
time substituted on failure, an insert error to inject, and the outcomes of
the best-effort mark-as-read and Discord calls (`discordEnabled` models a
non-nil Discord service). -/
structure HandlerEnv where
  existsErr : Option String
  parseResult : Option GoTime
  now : GoTime
  createErr : Option String
  markReadErr : Option String
  discordEnabled : Bool
  discordErr : Option String

/-- Arguments of one detached `ArchiveService.DownloadContent` task. -/
structure ArchiveCall where
  url : String
  author : String
  categoryTitle : String
  title : String
  publishedAt : GoTime
  hash : String
  deriving DecidableEq, Repr

/-- Side effects launched by one `processEntry` call beyond the store write. -/
structure HandlerTrace where
  markReadCalls : List Int
  archiveTasks : List ArchiveCall
  notifyCalls : List String
  deriving DecidableEq, Repr

/-- Trace with no side effects. -/
def HandlerTrace.empty : HandlerTrace :=
  { markReadCalls := [], archiveTasks := [], notifyCalls := [] }

/-- Embedding of `WebhookHandler.processEntry`: dedup check (already-seen is
a success and a no-op), timestamp parse with now-fallback, insert (fatal on
failure), best-effort mark-as-read, detached archive task, best-effort
notification. -/
def processEntry (env : HandlerEnv) (st : DedupStore) (feed : Feed) (entry : Entry) :
    Except String Unit × DedupStore × HandlerTrace :=
  match env.existsErr with
  | some e => (.error e, st, HandlerTrace.empty)
  | none =>
    if ExistsByHash st entry.hash then (.ok (), st, HandlerTrace.empty)
    else
      let publishedAt := match env.parseResult with | some t => t | none => env.now
      let post : Post :=
        { siteURL := feed.siteURL, entryID := entry.id, hash := entry.hash,
          title := entry.title, url := entry.url, publishedAt := publishedAt,
          content := entry.content, author := entry.author,
          categoryID := feed.category.id, categoryTitle := feed.category.title }
      match env.createErr with
      | some e => (.error ("failed to create post: " ++ e), st, HandlerTrace.empty)
      | none =>
        let task : ArchiveCall :=
          { url := entry.url
            author := entry.author
            categoryTitle := feed.category.title
            title := entry.title
            publishedAt := publishedAt
            hash := entry.hash }
        (.ok (), { posts := st.posts ++ [post] },
         { markReadCalls := [entry.id]
           archiveTasks := [task]
           notifyCalls := if env.discordEnabled then [entry.hash] else [] })

/-! ## ArchiveService.cleanupDirectory / cleanupEmptyParentDirs

The filesystem is modelled as two lists of canonical paths (regular files and
directories), a path being the list of its components; `filepath.Dir` on a
canonical path is `List.dropLast`, and the empty component list stands for the
filesystem root (which `os.Remove` can never remove). -/

/-- Canonical filesystem path: its list of components. -/
abbrev FPath := List String

/-- Filesystem snapshot: the existing regular files and directories. -/
structure FS where
  files : List FPath
  dirs : List FPath
  deriving DecidableEq, Repr

/-- Whether `f` is a direct child of directory `p`. -/
def isChildOf (p f : FPath) : Bool :=
  decide (f ≠ [] ∧ f.dropLast = p)

/-- The regular files directly inside `p`. -/
def childFiles (fs : FS) (p : FPath) : List FPath :=
  fs.files.filter (isChildOf p)

/-- The directories directly inside `p`. -/
def childDirs (fs : FS) (p : FPath) : List FPath :=
  fs.dirs.filter (isChildOf p)

/-- Whether the directory `p` has no entries (what a successful `os.ReadDir`
returning zero entries, or a successful `os.Remove` on a directory, check). -/
def dirIsEmpty (fs : FS) (p : FPath) : Bool :=
  (childFiles fs p).isEmpty && (childDirs fs p).isEmpty

/-- Remove the directory `p` from the snapshot. -/
def removeDir (fs : FS) (p : FPath) : FS :=
  { fs with dirs := fs.dirs.filter (fun d => d != p) }

/-- Whether the path exists at all (what `os.Stat` checks). -/
def pathExists (fs : FS) (p : FPath) : Bool :=
  decide (p ∈ fs.files ∨ p ∈ fs.dirs)

/-- The directories of a removal sequence, each required to be an existing
empty directory at the moment of its removal (the snapshot evolving as the
sequence is carried out). -/
def removedChain : FS → List FPath → Prop
  | _, [] => True
  | fs, q :: qs =>
    q ∈ fs.dirs ∧ dirIsEmpty fs q = true ∧ removedChain (removeDir fs q) qs

/-- Embedding of `ArchiveService.cleanupEmptyParentDirs`: stop at the base
directory, at its parent, or at the root; stop when the directory cannot be
listed; when it is empty, remove it and recurse into its parent.  Returns the
new snapshot and the directories removed, in removal order. -/
def cleanupEmptyParentDirs (base : FPath) : FPath → FS → FS × List FPath
  | p, fs =>
    if hstop : p = [] ∨ p = base ∨ p = base.dropLast then (fs, [])
    else if p ∈ fs.dirs then
      if dirIsEmpty fs p then
        let r := cleanupEmptyParentDirs base p.dropLast (removeDir fs p)
        (r.1, p :: r.2)
      else (fs, [])
    else (fs, [])
termination_by p => p.length
decreasing_by
  simp only [List.length_dropLast]
  have hne : p ≠ [] := fun hnil => hstop (Or.inl hnil)
  have := List.length_pos.mpr hne
  omega

/-- The file-then-directory phase of `cleanupDirectory`: delete every regular
file directly inside `dir`, then attempt to remove `dir` itself, which
succeeds exactly when nothing is left inside. -/
def removeDirFilesPhase (fs : FS) (dir : FPath) : FS :=
  let fs1 : FS := { fs with files := fs.files.filter (fun f => !(isChildOf dir f)) }
  if dirIsEmpty fs1 dir then removeDir fs1 dir else fs1

/-- Embedding of `ArchiveService.cleanupDirectory`: succeed trivially when
`dir` does not exist; fail when it exists but cannot be listed (it is a
regular file); otherwise remove its files, attempt to remove it, and walk
upward pruning empty ancestors.  Returns the snapshot and the ancestor
directories the upward walk removed. -/
def cleanupDirectory (base dir : FPath) (fs : FS) :
    Except Unit Unit × FS × List FPath :=
  if ¬ pathExists fs dir then (.ok (), fs, [])
  else if dir ∈ fs.dirs then
    let fs2 := removeDirFilesPhase fs dir
    let r := cleanupEmptyParentDirs base dir.dropLast fs2
    (.ok (), r.1, r.2)
  else (.error (), fs, [])

/-! ## Concrete fixtures used by witness instantiations -/

/-- Environment whose album search returns one album named "Foo". -/
def envAlbumFoo : ChibiEnv :=
  { albumSearchResult := .ok [{ name := "Foo", uuid := "u1" }],
    albumCreateResult := .ok "n", tagSearchResult := .ok [],
    tagCreateResult := .ok "t", readDirResult := .ok [],
    settingsFetchResult := .ok true,
    uploadDirectResult := fun _ _ => .ok "",
    uploadS3Result := fun _ _ => .ok "",
    addTagResult := fun _ _ => .ok () }

/-- Environment whose settings fetch fails and whose uploads succeed. -/
def envFetchDown : ChibiEnv :=
  { albumSearchResult := .ok [], albumCreateResult := .ok "",
    tagSearchResult := .ok [], tagCreateResult := .ok "",
    readDirResult := .ok [], settingsFetchResult := .error "down",
    uploadDirectResult := fun _ _ => .ok "d",
    uploadS3Result := fun _ _ => .ok "s",
    addTagResult := fun _ _ => .ok () }

/-- Environment with a three-file directory listing (one unsupported file and
one subdirectory among them), a working remote, and a failing tag-attach. -/
def envThreeFiles : ChibiEnv :=
  { albumSearchResult := .ok [], albumCreateResult := .ok "alb",
    tagSearchResult := .ok [], tagCreateResult := .ok "tg",
    readDirResult := .ok
      [⟨"b.png", false⟩, ⟨"sub", true⟩, ⟨"a.txt", false⟩,
       ⟨"c.jpg", false⟩, ⟨"d.mp4", false⟩],
    settingsFetchResult := .ok false,
    uploadDirectResult := fun f _ => if f = "My_Post-2.jpg" then .ok "" else .ok ("u-" ++ f),
    uploadS3Result := fun f _ => .ok ("s3-" ++ f),
    addTagResult := fun _ _ => .error "attach down" }

/-! ## Theorems -/

/-- C1: when the entry's hash is already present in the dedup store (and the
lookup itself does not fail), `processEntry` returns success and performs no
side effect at all: no insert, no mark-as-read call, no archive task, no
notification. -/
theorem processEntry_dedup_noop (env : HandlerEnv) (st : DedupStore)
    (feed : Feed) (entry : Entry)
    (hq : env.existsErr = none) (hex : ExistsByHash st entry.hash = true) :
    processEntry env st feed entry = (.ok (), st, HandlerTrace.empty) := by
  simp [processEntry, hq, hex]

/-- Witness for C1: a concrete store already holding hash "h1" and a second
submission of the same hash. -/
theorem processEntry_dedup_noop_witness :
    processEntry
      { existsErr := none, parseResult := none, now := ⟨2024, 1⟩,
        createErr := none, markReadErr := none, discordEnabled := true,
        discordErr := none }
      ⟨[⟨"s", 1, "h1", "t", "u", ⟨2024, 1⟩, "c", "a", 2, "cat"⟩]⟩
      ⟨1, "s", "ft", "fu", ⟨2, "cat"⟩⟩
      ⟨1, "h1", "t", "u", "2024-01-01T00:00:00Z", "c", "a"⟩ =
    (.ok (), ⟨[⟨"s", 1, "h1", "t", "u", ⟨2024, 1⟩, "c", "a", 2, "cat"⟩]⟩,
     HandlerTrace.empty) :=
  processEntry_dedup_noop _ _ _ _ rfl (by decide)

/-- C2, counterexample: the claim maps every character outside
`[A-Za-z0-9_-]` to an underscore, but the code keeps every Unicode letter:
on input "é" the sanitizer returns "é", not "_". -/
theorem sanitize_unicode_counterexample :
    SanitizeForPath "é" = "é" ∧ SanitizeForPath "é" ≠ "_" := by
  constructor
  · decide
  · decide

/-- C2, amended: the empty string maps to "unknown"; every other string is
mapped character-wise, a character being kept exactly when it is a Unicode
letter (per Go `unicode.IsLetter`), a Unicode digit (per `unicode.IsDigit`),
an underscore or a hyphen, and replaced by an underscore otherwise. -/
theorem sanitize_spec :
    SanitizeForPath "" = "unknown" ∧
    (∀ s : String, s ≠ "" → (SanitizeForPath s).data = s.data.map sanitizeChar) ∧
    (∀ c : Char, (goIsLetter c || goIsDigit c || c = '_' || c = '-') = true →
      sanitizeChar c = c) ∧
    (∀ c : Char, (goIsLetter c || goIsDigit c || c = '_' || c = '-') = false →
      sanitizeChar c = '_') := by
  refine ⟨rfl, ?_, ?_, ?_⟩
  · intro s hs
    simp [SanitizeForPath, hs]
  · intro c hc
    simp [sanitizeChar, hc]
  · intro c hc
    simp only [sanitizeChar, hc]
    simp

/-- Witness for C2: the sanitizer evaluated on a concrete non-empty string,
a kept character, and a replaced character. -/
theorem sanitize_spec_witness :
    (SanitizeForPath "a/b!").data = "a/b!".data.map sanitizeChar ∧
    sanitizeChar 'a' = 'a' ∧ sanitizeChar '/' = '_' :=
  ⟨sanitize_spec.2.1 "a/b!" (by decide),
   sanitize_spec.2.2.1 'a' (by decide),
   sanitize_spec.2.2.2 '/' (by decide)⟩

/-- C3: `buildArchivePath` is pure (two calls with identical inputs are
identical), equals the join of the base directory, the sanitized
"author - category" pair, the 4-digit year, the "month number - month name"
pair and the hash, and maps the spec's concrete example to
"base/Jane - Patreon/2024/03 - March/abc123". -/
theorem buildArchivePath_spec :
    (∀ (base author category : String) (t : GoTime) (hash : String),
      buildArchivePath base author category t hash =
        buildArchivePath base author category t hash) ∧
    (∀ (base author category : String) (t : GoTime) (hash : String),
      buildArchivePath base author category t hash =
        goFilepathJoin
          [base, SanitizeForPath author ++ " - " ++ SanitizeForPath category,
           fmtPad 4 t.year, fmtPad 2 t.month ++ " - " ++ goMonthName t.month,
           hash]) ∧
    buildArchivePath "base" "Jane" "Patreon" ⟨2024, 3⟩ "abc123" =
      "base/Jane - Patreon/2024/03 - March/abc123" :=
  ⟨fun _ _ _ _ _ => rfl, fun _ _ _ _ _ => rfl, by decide⟩

/-- C4: if the album search succeeds, then whenever some returned album's
name matches the requested name case-insensitively, `getOrCreateAlbum`
returns such an album's identifier and issues no create request; when no
result matches, it issues exactly one create request carrying the requested
name and returns the create call's outcome. -/
theorem getOrCreateAlbum_spec (env : ChibiEnv) (name : String)
    (albums : List ChibisafeAlbum)
    (hs : env.albumSearchResult = .ok albums) :
    ((∃ a ∈ albums, goEqualFold a.name name = true) →
      ∃ a ∈ albums, goEqualFold a.name name = true ∧
        getOrCreateAlbum env name = (.ok a.uuid, [])) ∧
    ((∀ a ∈ albums, goEqualFold a.name name = false) →
      getOrCreateAlbum env name = (env.albumCreateResult, [name])) := by
  constructor
  · intro hex
    have hfind : (albums.find? (fun a => goEqualFold a.name name)).isSome := by
      rcases hex with ⟨a, ha, hfold⟩
      exact List.find?_isSome.mpr ⟨a, ha, hfold⟩
    rcases Option.isSome_iff_exists.mp hfind with ⟨a, hfa⟩
    have hp := List.find?_some hfa
    refine ⟨a, List.mem_of_find?_eq_some hfa, by simpa using hp, ?_⟩
    simp [getOrCreateAlbum, hs, hfa]
  · intro hnone
    have hfind : albums.find? (fun a => goEqualFold a.name name) = none := by
      apply List.find?_eq_none.mpr
      intro a ha
      simp [hnone a ha]
    simp [getOrCreateAlbum, hs, hfind]

/-- Witness for C4: a remote store holding an album named "Foo" resolved by
the differently-cased request "foo" yields the existing id "u1" and no
create call. -/
theorem getOrCreateAlbum_spec_witness :
    getOrCreateAlbum envAlbumFoo "foo" = (.ok "u1", []) := by
  obtain ⟨a, ha, -, heq⟩ :=
    (getOrCreateAlbum_spec envAlbumFoo "foo" [{ name := "Foo", uuid := "u1" }] rfl).1
      ⟨⟨"Foo", "u1"⟩, by decide, by decide⟩
  have hau : a = ChibisafeAlbum.mk "Foo" "u1" := by simpa using ha
  rw [heq, hau]

/-- C5: with an empty settings cache and a failing settings fetch,
`uploadFile` falls back to the direct-multipart strategy, leaves the cache
unset, and a later `getSettings` call on the resulting state attempts the
network fetch again. -/
theorem uploadFile_settings_failure (st : ChibiState) (env : ChibiEnv)
    (filename albumUUID e : String)
    (hcache : st.useNetworkStorage = none)
    (hfetch : env.settingsFetchResult = .error e) :
    uploadFile st env filename albumUUID =
      (env.uploadDirectResult filename albumUUID, st, .direct) ∧
    (uploadFile st env filename albumUUID).2.1.useNetworkStorage = none ∧
    (∀ env2 : ChibiEnv,
      (getSettings (uploadFile st env filename albumUUID).2.1 env2).2.2 = true) := by
  obtain ⟨u⟩ := st
  cases hcache
  have h1 : uploadFile ⟨none⟩ env filename albumUUID =
      (env.uploadDirectResult filename albumUUID, ⟨none⟩, .direct) := by
    simp [uploadFile, getSettings, hfetch]
  refine ⟨h1, ?_, ?_⟩
  · rw [h1]
  · intro env2
    rw [h1]
    cases h2 : env2.settingsFetchResult <;> simp [getSettings, h2]

/-- Witness for C5: a concrete unconfigured cache and failing fetch, showing
direct upload with the cache still unset. -/
theorem uploadFile_settings_failure_witness :
    uploadFile ⟨none⟩ envFetchDown "f.png" "alb" = (.ok "d", ⟨none⟩, .direct) :=
  ((uploadFile_settings_failure ⟨none⟩ envFetchDown "f.png" "alb" "down" rfl rfl).1).trans rfl

/-- C9: when the API URL or the API key is empty, `UploadFiles` returns
success immediately, with no album or tag resolution and no upload. -/
theorem UploadFiles_not_configured (cfg : ChibiConfig) (st : ChibiState)
    (env : ChibiEnv) (dir cat author title : String)
    (h : cfg.apiURL = "" ∨ cfg.apiKey = "") :
    UploadFiles cfg st env dir cat author title = (.ok (), st, ChibiTrace.empty) := by
  have hc : IsConfigured cfg = false := by
    rcases h with h | h <;> simp [IsConfigured, h]
  simp [UploadFiles, hc]

/-- Witness for C9: a concrete service with an empty API URL. -/
theorem UploadFiles_not_configured_witness :
    UploadFiles ⟨"", "key"⟩ ⟨none⟩ envThreeFiles "dir" "cat" "auth" "title" =
      (.ok (), ⟨none⟩, ChibiTrace.empty) :=
  UploadFiles_not_configured ⟨"", "key"⟩ ⟨none⟩ envThreeFiles "dir" "cat" "auth"
    "title" (Or.inl rfl)

/-- The per-file loop records exactly the derived upload filenames, in
directory-listing order, appended to the incoming trace. -/
theorem uploadLoop_uploads (env : ChibiEnv) (albumUUID tagUUID T : String)
    (total : Nat) (files : List DirEntry) :
    ∀ (i : Nat) (st : ChibiState) (tr : ChibiTrace),
      (uploadLoop env albumUUID tagUUID T total files i st tr).2.uploads =
        tr.uploads ++ uploadNames T total files i := by
  induction files with
  | nil =>
    intro i st tr
    simp [uploadLoop, uploadNames]
  | cons f rest ih =>
    intro i st tr
    cases hup : (uploadFile st env
        (if total = 1 then T ++ goFilepathExt f.name
         else T ++ "-" ++ goItoa (i + 1) ++ goFilepathExt f.name) albumUUID).1 with
    | error e =>
      simp [uploadLoop, uploadNames, hup, ih]
    | ok u =>
      by_cases htag : tagUUID ≠ "" ∧ u ≠ ""
      · simp [uploadLoop, uploadNames, hup, htag, ih]
      · simp [uploadLoop, uploadNames, hup, htag, ih]

/-- Position-wise characterization of the derived upload filenames. -/
theorem uploadNames_get (T : String) (total : Nat) (files : List DirEntry) :
    ∀ (i n : Nat),
      (uploadNames T total files i)[n]? =
        (files[n]?).map (fun f =>
          if total = 1 then T ++ goFilepathExt f.name
          else T ++ "-" ++ goItoa (i + n + 1) ++ goFilepathExt f.name) := by
  induction files with
  | nil =>
    intro i n
    simp [uploadNames]
  | cons f rest ih =>
    intro i n
    cases n with
    | zero =>
      simp [uploadNames]
    | succ m =>
      have harith : i + 1 + m + 1 = i + (m + 1) + 1 := by omega
      simp [uploadNames, ih, harith]

/-- Every tag-attach request the per-file loop adds to the trace carries a
non-empty file uuid and a non-empty tag uuid. -/
theorem uploadLoop_attaches (env : ChibiEnv) (albumUUID tagUUID T : String)
    (total : Nat) (files : List DirEntry) :
    ∀ (i : Nat) (st : ChibiState) (tr : ChibiTrace),
      ∀ q ∈ (uploadLoop env albumUUID tagUUID T total files i st tr).2.tagAttaches,
        q ∈ tr.tagAttaches ∨ (q.1 ≠ "" ∧ q.2 ≠ "") := by
  induction files with
  | nil =>
    intro i st tr q hq
    exact Or.inl (by simpa [uploadLoop] using hq)
  | cons f rest ih =>
    intro i st tr q hq
    cases hup : (uploadFile st env
        (if total = 1 then T ++ goFilepathExt f.name
         else T ++ "-" ++ goItoa (i + 1) ++ goFilepathExt f.name) albumUUID).1 with
    | error e =>
      simp only [uploadLoop, hup] at hq
      rcases ih _ _ _ q hq with hmem | hgood
      · exact Or.inl (by simpa using hmem)
      · exact Or.inr hgood
    | ok u =>
      by_cases htag : tagUUID ≠ "" ∧ u ≠ ""
      · simp only [uploadLoop, hup, if_pos htag] at hq
        rcases ih _ _ _ q hq with hmem | hgood
        · have hsplit : q ∈ tr.tagAttaches ∨ q = (u, tagUUID) := by simpa using hmem
          rcases hsplit with hmem2 | hone
          · exact Or.inl hmem2
          · right
            rw [hone]
            exact ⟨htag.2, htag.1⟩
        · exact Or.inr hgood
      · simp only [uploadLoop, hup, if_neg htag] at hq
        rcases ih _ _ _ q hq with hmem | hgood
        · exact Or.inl (by simpa using hmem)
        · exact Or.inr hgood

/-- Two environments agreeing on the settings fetch and on both upload
oracles drive the per-file loop to the same result: in particular the
tag-attach oracle influences nothing. -/
theorem uploadLoop_env_agnostic (env2 env : ChibiEnv)
    (hsettings : env2.settingsFetchResult = env.settingsFetchResult)
    (hdirect : env2.uploadDirectResult = env.uploadDirectResult)
    (hs3 : env2.uploadS3Result = env.uploadS3Result)
    (albumUUID tagUUID T : String) (total : Nat) (files : List DirEntry) :
    ∀ (i : Nat) (st : ChibiState) (tr : ChibiTrace),
      uploadLoop env2 albumUUID tagUUID T total files i st tr =
        uploadLoop env albumUUID tagUUID T total files i st tr := by
  have hup : ∀ (st : ChibiState) (fn al : String),
      uploadFile st env2 fn al = uploadFile st env fn al := by
    intro st fn al
    obtain ⟨u⟩ := st
    cases u with
    | none =>
      simp only [uploadFile, getSettings, hsettings, hdirect, hs3]
    | some b =>
      simp only [uploadFile, getSettings, hdirect, hs3]
  induction files with
  | nil =>
    intro i st tr
    rfl
  | cons f rest ih =>
    intro i st tr
    cases hres : (uploadFile st env
        (if total = 1 then T ++ goFilepathExt f.name
         else T ++ "-" ++ goItoa (i + 1) ++ goFilepathExt f.name) albumUUID).1 with
    | error e =>
      simp only [uploadLoop, hup, hres]
      exact ih _ _ _
    | ok u =>
      by_cases htag : tagUUID ≠ "" ∧ u ≠ ""
      · simp only [uploadLoop, hup, hres, if_pos htag]
        exact ih _ _ _
      · simp only [uploadLoop, hup, hres, if_neg htag]
        exact ih _ _ _

/-- C6: with a successful listing, `uploadDirectoryFiles` succeeds without
uploading anything when no eligible file remains; otherwise the n-th upload
(0-based, in directory-listing order) is named `{title}{ext}` when exactly
one file is eligible and `{title}-{n+1}{ext}` otherwise, the title being the
sanitized one. -/
theorem uploadDirectoryFiles_filenames (st : ChibiState) (env : ChibiEnv)
    (albumUUID tagUUID title : String) (entries : List DirEntry)
    (hls : env.readDirResult = .ok entries) :
    (eligibleFiles entries = [] →
      uploadDirectoryFiles st env albumUUID tagUUID title =
        (.ok (), st, ChibiTrace.empty)) ∧
    (∀ n : Nat,
      (uploadDirectoryFiles st env albumUUID tagUUID title).2.2.uploads[n]? =
        ((eligibleFiles entries)[n]?).map (fun f =>
          if (eligibleFiles entries).length = 1 then
            uploadTitle title ++ goFilepathExt f.name
          else uploadTitle title ++ "-" ++ goItoa (n + 1) ++ goFilepathExt f.name)) := by
  constructor
  · intro hzero
    simp [uploadDirectoryFiles, hls, hzero]
  · intro n
    cases hel : eligibleFiles entries with
    | nil =>
      simp [uploadDirectoryFiles, hls, hel, ChibiTrace.empty]
    | cons f rest =>
      simp only [uploadDirectoryFiles, hls, hel]
      rw [show (f :: rest).isEmpty = false from rfl]
      simp only [Bool.false_eq_true, if_false]
      rw [uploadLoop_uploads]
      simp only [ChibiTrace.empty, List.nil_append]
      rw [uploadNames_get]
      simp

/-- Witness for C6: three eligible files (among an unsupported file and a
subdirectory) with title "My Post" yield "My_Post-2.jpg" at position 1. -/
theorem uploadDirectoryFiles_filenames_witness :
    (uploadDirectoryFiles ⟨none⟩ envThreeFiles "alb" "tg" "My Post").2.2.uploads[1]? =
      some "My_Post-2.jpg" := by
  have h := (uploadDirectoryFiles_filenames ⟨none⟩ envThreeFiles "alb" "tg" "My Post"
    [⟨"b.png", false⟩, ⟨"sub", true⟩, ⟨"a.txt", false⟩,
     ⟨"c.jpg", false⟩, ⟨"d.mp4", false⟩] rfl).2 1
  rw [h]
  decide

/-- C10: with a successful listing, a directory upload always reports
success regardless of any per-file or tag-attach failure; every tag-attach
request carries a non-empty file uuid and a non-empty tag uuid; and the
tag-attach outcome cannot change the call's result at all. -/
theorem uploadDirectoryFiles_tag_attach (st : ChibiState) (env : ChibiEnv)
    (albumUUID tagUUID title : String) (entries : List DirEntry)
    (hls : env.readDirResult = .ok entries) :
    (uploadDirectoryFiles st env albumUUID tagUUID title).1 = .ok () ∧
    (∀ q ∈ (uploadDirectoryFiles st env albumUUID tagUUID title).2.2.tagAttaches,
      q.1 ≠ "" ∧ q.2 ≠ "") ∧
    (∀ g : String → String → Except String Unit,
      uploadDirectoryFiles st { env with addTagResult := g } albumUUID tagUUID title =
        uploadDirectoryFiles st env albumUUID tagUUID title) := by
  refine ⟨?_, ?_, ?_⟩
  · cases hel : (eligibleFiles entries).isEmpty <;>
      simp [uploadDirectoryFiles, hls, hel]
  · intro q hq
    cases hel : (eligibleFiles entries).isEmpty
    · simp only [uploadDirectoryFiles, hls, hel, Bool.false_eq_true, if_false] at hq
      rcases uploadLoop_attaches env albumUUID tagUUID (uploadTitle title)
          (eligibleFiles entries).length (eligibleFiles entries) 0 st
          ChibiTrace.empty q hq with hmem | hgood
      · simp [ChibiTrace.empty] at hmem
      · exact hgood
    · simp [uploadDirectoryFiles, hls, hel, ChibiTrace.empty] at hq
  · intro g
    simp only [uploadDirectoryFiles]
    rw [show ({ env with addTagResult := g } : ChibiEnv).readDirResult =
      env.readDirResult from rfl, hls]
    cases hel : (eligibleFiles entries).isEmpty
    · have h := uploadLoop_env_agnostic
        ⟨env.albumSearchResult, env.albumCreateResult, env.tagSearchResult,
         env.tagCreateResult, Except.ok entries, env.settingsFetchResult,
         env.uploadDirectResult, env.uploadS3Result, g⟩ env rfl rfl rfl
        albumUUID tagUUID (uploadTitle title) (eligibleFiles entries).length
        (eligibleFiles entries) 0 st ChibiTrace.empty
      simp only [hel, Bool.false_eq_true, if_false, h]
    · simp [hel]

/-- Witness for C10: the three-file fixture with a failing tag-attach oracle
still succeeds, and a concrete recorded attach pair is non-empty on both
sides. -/
theorem uploadDirectoryFiles_tag_attach_witness :
    (uploadDirectoryFiles ⟨none⟩ envThreeFiles "alb" "tg" "My Post").1 = .ok () ∧
    ("u-My_Post-1.png" ≠ "" ∧ "tg" ≠ "") := by
  have h := uploadDirectoryFiles_tag_attach ⟨none⟩ envThreeFiles "alb" "tg" "My Post"
    [⟨"b.png", false⟩, ⟨"sub", true⟩, ⟨"a.txt", false⟩,
     ⟨"c.jpg", false⟩, ⟨"d.mp4", false⟩] rfl
  exact ⟨h.1, h.2.1 ("u-My_Post-1.png", "tg") (by decide)⟩

/-- The upward walk removes only directories that were existing and empty at
their removal moment, and none of them is the root, the base directory, or
the base directory's parent. -/
theorem walk_sound (base : FPath) :
    ∀ (n : Nat) (p : FPath) (fs : FS), p.length ≤ n →
      removedChain fs (cleanupEmptyParentDirs base p fs).2 ∧
      (∀ q ∈ (cleanupEmptyParentDirs base p fs).2,
        q ≠ [] ∧ q ≠ base ∧ q ≠ base.dropLast) := by
  intro n
  induction n with
  | zero =>
    intro p fs hp
    have hpnil : p = [] := List.length_eq_zero.mp (Nat.le_zero.mp hp)
    subst hpnil
    rw [cleanupEmptyParentDirs]
    simp [removedChain]
  | succ n ih =>
    intro p fs hp
    rw [cleanupEmptyParentDirs]
    by_cases hstop : p = [] ∨ p = base ∨ p = base.dropLast
    · simp [hstop, removedChain]
    · push_neg at hstop
      obtain ⟨hp1, hp2, hp3⟩ := hstop
      rw [dif_neg (by push_neg; exact ⟨hp1, hp2, hp3⟩)]
      by_cases hdir : p ∈ fs.dirs
      · rw [if_pos hdir]
        by_cases hempty : dirIsEmpty fs p = true
        · rw [if_pos hempty]
          have hlen : p.dropLast.length ≤ n := by
            have := List.length_dropLast p
            have hpos := List.length_pos.mpr hp1
            omega
          have hrec := ih p.dropLast (removeDir fs p) hlen
          refine ⟨⟨hdir, hempty, hrec.1⟩, ?_⟩
          intro q hq
          rcases List.mem_cons.mp hq with hq1 | hq2
          · rw [hq1]
            exact ⟨hp1, hp2, hp3⟩
          · exact hrec.2 q hq2
        · rw [if_neg hempty]
          simp [removedChain]
      · rw [if_neg hdir]
        simp [removedChain]

/-- Directories the upward walk does not list as removed survive it. -/
theorem walk_dirs_survive (base : FPath) :
    ∀ (n : Nat) (p : FPath) (fs : FS) (x : FPath), p.length ≤ n →
      x ∈ fs.dirs → x ∉ (cleanupEmptyParentDirs base p fs).2 →
      x ∈ (cleanupEmptyParentDirs base p fs).1.dirs := by
  intro n
  induction n with
  | zero =>
    intro p fs x hp hx _
    have hpnil : p = [] := List.length_eq_zero.mp (Nat.le_zero.mp hp)
    subst hpnil
    rw [cleanupEmptyParentDirs]
    simpa using hx
  | succ n ih =>
    intro p fs x hp hx hnot
    rw [cleanupEmptyParentDirs] at hnot ⊢
    by_cases hstop : p = [] ∨ p = base ∨ p = base.dropLast
    · simpa [hstop] using hx
    · rw [dif_neg hstop] at hnot ⊢
      by_cases hdir : p ∈ fs.dirs
      · rw [if_pos hdir] at hnot ⊢
        by_cases hempty : dirIsEmpty fs p = true
        · rw [if_pos hempty] at hnot ⊢
          have hxp : x ≠ p := by
            intro hxp
            exact hnot (by simp [hxp])
          have hx2 : x ∈ (removeDir fs p).dirs := by
            simp only [removeDir, List.mem_filter]
            exact ⟨hx, by simpa using hxp⟩
          have hlen : p.dropLast.length ≤ n := by
            have := List.length_dropLast p
            have hp1 : p ≠ [] := fun hnil => hstop (Or.inl hnil)
            have hpos := List.length_pos.mpr hp1
            omega
          exact ih p.dropLast (removeDir fs p) x hlen hx2
            (fun hmem => hnot (by simp [hmem]))
        · rw [if_neg hempty]
          exact hx
      · rw [if_neg hdir]
        exact hx

/-- One removal step of the upward walk: away from the boundary, an existing
empty directory is removed and the walk continues at its parent. -/
theorem walk_step_removes (base p : FPath) (fs : FS)
    (h1 : ¬(p = [] ∨ p = base ∨ p = base.dropLast)) (h2 : p ∈ fs.dirs)
    (h3 : dirIsEmpty fs p = true) :
    cleanupEmptyParentDirs base p fs =
      ((cleanupEmptyParentDirs base p.dropLast (removeDir fs p)).1,
       p :: (cleanupEmptyParentDirs base p.dropLast (removeDir fs p)).2) := by
  rw [cleanupEmptyParentDirs]
  rw [dif_neg h1, if_pos h2, if_pos h3]

/-- Stopping step of the upward walk: a non-empty directory stops it with
nothing removed. -/
theorem walk_step_stops (base p : FPath) (fs : FS)
    (h : dirIsEmpty fs p = false) :
    cleanupEmptyParentDirs base p fs = (fs, []) := by
  rw [cleanupEmptyParentDirs]
  by_cases h1 : p = [] ∨ p = base ∨ p = base.dropLast
  · rw [dif_pos h1]
  · rw [dif_neg h1]
    by_cases h2 : p ∈ fs.dirs
    · rw [if_pos h2, if_neg (by simp [h])]
    · rw [if_neg h2]

/-- C7: cleanup of a missing directory succeeds and deletes nothing; when the
directory exists, the upward walk removes only directories that are empty at
their removal moment and never the base directory, its parent, or the root;
away from the boundary an empty ancestor is removed and the walk continues
upward, while a non-empty one stops it; and the base directory and its parent
always survive the whole cleanup. -/
theorem cleanupDirectory_spec (base dir : FPath) (fs : FS) :
    (pathExists fs dir = false → cleanupDirectory base dir fs = (.ok (), fs, [])) ∧
    (dir ∈ fs.dirs →
      removedChain (removeDirFilesPhase fs dir) (cleanupDirectory base dir fs).2.2 ∧
      ∀ q ∈ (cleanupDirectory base dir fs).2.2,
        q ≠ [] ∧ q ≠ base ∧ q ≠ base.dropLast) ∧
    (∀ (p : FPath) (fs0 : FS), ¬(p = [] ∨ p = base ∨ p = base.dropLast) →
      p ∈ fs0.dirs → dirIsEmpty fs0 p = true →
      cleanupEmptyParentDirs base p fs0 =
        ((cleanupEmptyParentDirs base p.dropLast (removeDir fs0 p)).1,
         p :: (cleanupEmptyParentDirs base p.dropLast (removeDir fs0 p)).2)) ∧
    (∀ (p : FPath) (fs0 : FS), dirIsEmpty fs0 p = false →
      cleanupEmptyParentDirs base p fs0 = (fs0, [])) ∧
    (dir ≠ base → base ∈ fs.dirs →
      base ∈ (cleanupDirectory base dir fs).2.1.dirs) ∧
    (dir ≠ base.dropLast → base.dropLast ∈ fs.dirs →
      base.dropLast ∈ (cleanupDirectory base dir fs).2.1.dirs) := by
  have hphase : ∀ x : FPath, x ∈ fs.dirs → x ≠ dir →
      x ∈ (removeDirFilesPhase fs dir).dirs := by
    intro x hx hxd
    simp only [removeDirFilesPhase]
    split
    · simp only [removeDir, List.mem_filter]
      exact ⟨hx, by simpa using hxd⟩
    · exact hx
  refine ⟨?_, ?_, ?_, ?_, ?_, ?_⟩
  · intro hmiss
    simp [cleanupDirectory, hmiss]
  · intro hdir
    have hex : pathExists fs dir = true := by
      simp [pathExists]
      exact Or.inr hdir
    constructor
    · simp only [cleanupDirectory, hex]
      rw [if_neg (by simp), if_pos hdir]
      exact (walk_sound base dir.dropLast.length dir.dropLast
        (removeDirFilesPhase fs dir) le_rfl).1
    · simp only [cleanupDirectory, hex]
      rw [if_neg (by simp), if_pos hdir]
      exact (walk_sound base dir.dropLast.length dir.dropLast
        (removeDirFilesPhase fs dir) le_rfl).2
  · intro p fs0 h1 h2 h3
    exact walk_step_removes base p fs0 h1 h2 h3
  · intro p fs0 h
    exact walk_step_stops base p fs0 h
  · intro hnb hbase
    by_cases hex : pathExists fs dir = true
    · simp only [cleanupDirectory, hex]
      rw [if_neg (by simp)]
      by_cases hdir : dir ∈ fs.dirs
      · rw [if_pos hdir]
        have hb2 : base ∈ (removeDirFilesPhase fs dir).dirs :=
          hphase base hbase (by intro h; exact hnb h.symm)
        refine walk_dirs_survive base dir.dropLast.length dir.dropLast
          (removeDirFilesPhase fs dir) base le_rfl hb2 ?_
        intro hmem
        exact ((walk_sound base dir.dropLast.length dir.dropLast
          (removeDirFilesPhase fs dir) le_rfl).2 base hmem).2.1 rfl
      · rw [if_neg hdir]
        exact hbase
    · have hmiss : pathExists fs dir = false := by
        cases h : pathExists fs dir
        · rfl
        · exact absurd h hex
      simp [cleanupDirectory, hmiss]
      exact hbase
  · intro hnp hparent
    by_cases hex : pathExists fs dir = true
    · simp only [cleanupDirectory, hex]
      rw [if_neg (by simp)]
      by_cases hdir : dir ∈ fs.dirs
      · rw [if_pos hdir]
        have hb2 : base.dropLast ∈ (removeDirFilesPhase fs dir).dirs :=
          hphase base.dropLast hparent (by intro h; exact hnp h.symm)
        refine walk_dirs_survive base dir.dropLast.length dir.dropLast
          (removeDirFilesPhase fs dir) base.dropLast le_rfl hb2 ?_
        intro hmem
        exact ((walk_sound base dir.dropLast.length dir.dropLast
          (removeDirFilesPhase fs dir) le_rfl).2 base.dropLast hmem).2.2 rfl
      · rw [if_neg hdir]
        exact hparent
    · have hmiss : pathExists fs dir = false := by
        cases h : pathExists fs dir
        · rfl
        · exact absurd h hex
      simp [cleanupDirectory, hmiss]
      exact hparent

/-- Witness for C7: cleanup of a missing directory under a concrete base is
a no-op, and a concrete empty ancestor away from the boundary is removed by
one walk step. -/
theorem cleanupDirectory_spec_witness :
    cleanupDirectory ["base"] ["base", "gone"] ⟨[], [["base"]]⟩ =
      (.ok (), ⟨[], [["base"]]⟩, []) ∧
    cleanupEmptyParentDirs ["base"] ["base", "A"] ⟨[], [["base"], ["base", "A"]]⟩ =
      ((cleanupEmptyParentDirs ["base"] (["base", "A"].dropLast)
          (removeDir ⟨[], [["base"], ["base", "A"]]⟩ ["base", "A"])).1,
       ["base", "A"] :: (cleanupEmptyParentDirs ["base"] (["base", "A"].dropLast)
          (removeDir ⟨[], [["base"], ["base", "A"]]⟩ ["base", "A"])).2) :=
  ⟨(cleanupDirectory_spec ["base"] ["base", "gone"] ⟨[], [["base"]]⟩).1 (by decide),
   (cleanupDirectory_spec ["base"] ["base", "gone"] ⟨[], [["base"]]⟩).2.2.1
     ["base", "A"] ⟨[], [["base"], ["base", "A"]]⟩ (by decide) (by decide) (by decide)⟩

/-! ### String and path-cleaning lemmas towards the hash-component theorem -/

/-- Concatenation of strings concatenates their character lists. -/
theorem string_data_append (a b : String) : (a ++ b).data = a.data ++ b.data := rfl

/-- Strings are equal exactly when their character lists are. -/
theorem string_eq_iff_data (a b : String) : a = b ↔ a.data = b.data := by
  constructor
  · intro h
    rw [h]
  · intro h
    cases a
    cases b
    exact congrArg String.mk h

/-- The sanitizer never emits a path separator. -/
theorem sanitizeChar_ne_slash (c : Char) : sanitizeChar c ≠ '/' := by
  by_cases hcond : (goIsLetter c || goIsDigit c || c = '_' || c = '-') = true
  · simp only [sanitizeChar, hcond, if_true]
    intro hc
    subst hc
    exact absurd hcond (by decide)
  · have hf : (goIsLetter c || goIsDigit c || c = '_' || c = '-') = false := by
      revert hcond
      cases goIsLetter c || goIsDigit c || c = '_' || c = '-' <;> simp
    simp only [sanitizeChar, hf, Bool.false_eq_true, if_false]
    decide

/-- No sanitized string contains a path separator. -/
theorem sanitize_no_slash (s : String) : '/' ∉ (SanitizeForPath s).data := by
  by_cases hs : s = ""
  · subst hs
    decide
  · simp only [SanitizeForPath, hs, if_false]
    intro hmem
    rcases List.mem_map.mp hmem with ⟨c, -, hc⟩
    exact sanitizeChar_ne_slash c hc

/-- Every character of the fuel-bounded decimal rendering is a digit. -/
theorem decimalDigitsAux_digits :
    ∀ (fuel n : Nat), ∀ c ∈ decimalDigitsAux fuel n, c.isDigit = true := by
  intro fuel
  induction fuel with
  | zero =>
    intro n c hc
    simp [decimalDigitsAux] at hc
  | succ fuel ih =>
    intro n c hc
    cases n with
    | zero =>
      simp [decimalDigitsAux] at hc
    | succ k =>
      rw [decimalDigitsAux] at hc
      rcases List.mem_append.mp hc with hc1 | hc2
      · exact ih _ c hc1
      · have hm : (k + 1) % 10 < 10 := Nat.mod_lt _ (by norm_num)
        have hdig : ∀ m : Nat, m < 10 → (Nat.digitChar m).isDigit = true := by decide
        have hceq : c = Nat.digitChar ((k + 1) % 10) := by simpa using hc2
        rw [hceq]
        exact hdig _ hm

/-- Every character of the decimal rendering of a natural number is a digit. -/
theorem goItoa_digits (n : Nat) : ∀ c ∈ (goItoa n).data, c.isDigit = true := by
  intro c hc
  by_cases hn : n = 0
  · subst hn
    have : c = '0' := by simpa [goItoa] using hc
    rw [this]
    decide
  · simp only [goItoa, hn, if_false] at hc
    exact decimalDigitsAux_digits n n c hc

/-- The decimal rendering is never empty. -/
theorem goItoa_ne_nil (n : Nat) : (goItoa n).data ≠ [] := by
  by_cases hn : n = 0
  · subst hn
    decide
  · simp only [goItoa, hn, if_false]
    cases n with
    | zero => exact absurd rfl hn
    | succ k =>
      rw [show decimalDigits (k + 1) =
        decimalDigitsAux k ((k + 1) / 10) ++ [Nat.digitChar ((k + 1) % 10)] from rfl]
      simp

/-- Characters of a zero-padded number are digits. -/
theorem fmtPad_digits (w n : Nat) : ∀ c ∈ (fmtPad w n).data, c.isDigit = true := by
  intro c hc
  rw [show (fmtPad w n).data =
    List.replicate (w - (goItoa n).length) '0' ++ (goItoa n).data from rfl] at hc
  rcases List.mem_append.mp hc with hc1 | hc2
  · rw [List.eq_of_mem_replicate hc1]
    decide
  · exact goItoa_digits n c hc2

/-- A zero-padded number is never empty. -/
theorem fmtPad_ne_nil (w n : Nat) : (fmtPad w n).data ≠ [] := by
  rw [show (fmtPad w n).data =
    List.replicate (w - (goItoa n).length) '0' ++ (goItoa n).data from rfl]
  intro h
  rcases List.append_eq_nil.mp h with ⟨-, h2⟩
  exact goItoa_ne_nil n h2

/-- The month name never contains a path separator. -/
theorem goMonthName_no_slash (m : Nat) : '/' ∉ (goMonthName m).data := by
  unfold goMonthName
  split
  · decide
  · decide
  · decide
  · decide
  · decide
  · decide
  · decide
  · decide
  · decide
  · decide
  · decide
  · decide
  · rw [string_data_append, string_data_append]
    intro hmem
    rcases List.mem_append.mp hmem with hmem2 | hmem2
    · rcases List.mem_append.mp hmem2 with hmem3 | hmem3
      · revert hmem3
        decide
      · have := goItoa_digits m '/' hmem3
        exact absurd this (by decide)
    · revert hmem2
      decide

/-- Splitting at separators always yields at least one segment. -/
theorem splitSlash_ne_nil (cs : List Char) : splitSlash cs ≠ [] := by
  cases cs with
  | nil => simp [splitSlash]
  | cons c rest =>
    simp only [splitSlash]
    split <;> simp

/-- Head default of an append is decided by a non-empty left part. -/
theorem headD_append_left {α : Type} (l m : List α) (d : α) (h : l ≠ []) :
    (l ++ m).headD d = l.headD d := by
  cases l with
  | nil => exact absurd rfl h
  | cons a t => rfl

/-- Tail of an append with a non-empty left part. -/
theorem tail_append_left {α : Type} (l m : List α) (h : l ≠ []) :
    (l ++ m).tail = l.tail ++ m := by
  cases l with
  | nil => exact absurd rfl h
  | cons a t => rfl

/-- Splitting distributes over a separator placed between two parts. -/
theorem splitSlash_append_slash (xs ys : List Char) :
    splitSlash (xs ++ '/' :: ys) = splitSlash xs ++ splitSlash ys := by
  induction xs with
  | nil =>
    simp [splitSlash]
  | cons c rest ih =>
    have hsplit : splitSlash ((c :: rest) ++ '/' :: ys) =
        if c = '/' then [] :: splitSlash (rest ++ '/' :: ys)
        else (c :: (splitSlash (rest ++ '/' :: ys)).headD []) ::
          (splitSlash (rest ++ '/' :: ys)).tail := rfl
    have hsplit2 : splitSlash (c :: rest) =
        if c = '/' then [] :: splitSlash rest
        else (c :: (splitSlash rest).headD []) :: (splitSlash rest).tail := rfl
    rw [hsplit, hsplit2, ih]
    by_cases hc : c = '/'
    · simp [hc]
    · simp only [hc, if_false]
      rw [headD_append_left _ _ _ (splitSlash_ne_nil rest),
        tail_append_left _ _ (splitSlash_ne_nil rest)]
      simp

/-- A separator-free character list is one single segment. -/
theorem splitSlash_no_slash (cs : List Char) (h : '/' ∉ cs) :
    splitSlash cs = [cs] := by
  induction cs with
  | nil => rfl
  | cons c rest ih =>
    have hc : c ≠ '/' := fun hc => h (hc ▸ List.mem_cons_self c rest)
    have hrest : '/' ∉ rest := fun h2 => h (List.mem_cons_of_mem _ h2)
    simp [splitSlash, hc, ih hrest]

/-- Joining after adding a final segment appends a separator and it. -/
theorem joinSlash_snoc (xs : List (List Char)) (h : List Char) (hxs : xs ≠ []) :
    joinSlash (xs ++ [h]) = joinSlash xs ++ '/' :: h := by
  induction xs with
  | nil => exact absurd rfl hxs
  | cons x rest ih =>
    cases rest with
    | nil => simp [joinSlash]
    | cons y t =>
      have h1 : (x :: y :: t) ++ [h] = x :: ((y :: t) ++ [h]) := rfl
      have h2 : joinSlash (x :: ((y :: t) ++ [h])) =
          x ++ '/' :: joinSlash ((y :: t) ++ [h]) := rfl
      have h3 : joinSlash (x :: y :: t) = x ++ '/' :: joinSlash (y :: t) := rfl
      rw [h1, h2, h3, ih (by simp)]
      simp

/-- The joined list starts with its first segment. -/
theorem joinSlash_cons_exists (p : List Char) (rest : List (List Char)) :
    ∃ q, joinSlash (p :: rest) = p ++ q := by
  cases rest with
  | nil => exact ⟨[], by simp [joinSlash]⟩
  | cons y t => exact ⟨'/' :: joinSlash (y :: t), rfl⟩

/-- Joining a list whose final segment is non-empty is non-empty. -/
theorem joinSlash_snoc_ne_nil (xs : List (List Char)) (e : List Char)
    (he : e ≠ []) : joinSlash (xs ++ [e]) ≠ [] := by
  cases xs with
  | nil => simpa [joinSlash] using he
  | cons x t =>
    rw [joinSlash_snoc _ _ (by simp)]
    simp

/-- A normal segment (non-empty, not "." or "..") is pushed by the cleaning
step. -/
theorem cleanStep_push (r : Bool) (st : List (List Char)) (seg : List Char)
    (h1 : seg ≠ []) (h2 : seg ≠ ['.']) (h3 : seg ≠ ['.', '.']) :
    cleanStep r st seg = st ++ [seg] := by
  simp [cleanStep, h1, h2, h3]

/-- Rootedness is decided by a non-empty first part. -/
theorem isRooted_append (p q : List Char) (hp : p ≠ []) :
    isRootedChars (p ++ q) = isRootedChars p := by
  cases p with
  | nil => exact absurd rfl hp
  | cons a t => rfl

/-- Cleaning a joined path whose final segment `h` is normal (non-empty, not
"." or "..", separator-free) and whose previous segment `m` is normal too
appends "/" and `h` verbatim to the cleaned path without `h`. -/
theorem goCleanChars_join_snoc (front : List (List Char)) (m h : List Char)
    (hm1 : m ≠ []) (hm2 : m ≠ ['.']) (hm3 : m ≠ ['.', '.']) (hm4 : '/' ∉ m)
    (hh1 : h ≠ []) (hh2 : h ≠ ['.']) (hh3 : h ≠ ['.', '.']) (hh4 : '/' ∉ h)
    (hfirst : (front ++ [m]).headD [] ≠ []) :
    goCleanChars (joinSlash ((front ++ [m]) ++ [h])) =
      goCleanChars (joinSlash (front ++ [m])) ++ "/" ++ String.mk h := by
  have hP : front ++ [m] ≠ [] := by simp
  have hjoin : joinSlash ((front ++ [m]) ++ [h]) =
      joinSlash (front ++ [m]) ++ '/' :: h := joinSlash_snoc _ _ hP
  obtain ⟨p₀, restP, hPeq⟩ : ∃ a l, front ++ [m] = a :: l := by
    cases hF : front ++ [m] with
    | nil => exact absurd hF hP
    | cons a l => exact ⟨a, l, rfl⟩
  have hp₀ : p₀ ≠ [] := by
    rw [hPeq] at hfirst
    simpa using hfirst
  obtain ⟨q, hq⟩ := joinSlash_cons_exists p₀ restP
  have hrooted : isRootedChars (joinSlash (front ++ [m]) ++ '/' :: h) =
      isRootedChars (joinSlash (front ++ [m])) := by
    rw [hPeq, hq, List.append_assoc, isRooted_append _ _ hp₀, isRooted_append _ _ hp₀]
  have hsegs : splitSlash (joinSlash (front ++ [m]) ++ '/' :: h) =
      splitSlash (joinSlash (front ++ [m])) ++ [h] := by
    rw [splitSlash_append_slash, splitSlash_no_slash h hh4]
  have hstack : ∃ s0, (splitSlash (joinSlash (front ++ [m]))).foldl
      (cleanStep (isRootedChars (joinSlash (front ++ [m])))) [] = s0 ++ [m] := by
    cases front with
    | nil =>
      refine ⟨[], ?_⟩
      rw [List.nil_append, show joinSlash [m] = m from rfl,
        splitSlash_no_slash m hm4]
      simp [cleanStep_push _ _ _ hm1 hm2 hm3]
    | cons f0 frest =>
      rw [joinSlash_snoc _ _ (by simp), splitSlash_append_slash,
        splitSlash_no_slash m hm4, List.foldl_append]
      exact ⟨_, cleanStep_push _ _ _ hm1 hm2 hm3⟩
  obtain ⟨s0, hs0⟩ := hstack
  have happ : ∀ a b : List Char, String.mk a ++ String.mk b = String.mk (a ++ b) :=
    fun _ _ => rfl
  have hslash : ("/" : String) = String.mk ['/'] := rfl
  simp only [goCleanChars]
  rw [hjoin, hrooted, hsegs, List.foldl_append, hs0]
  rw [show List.foldl (cleanStep (isRootedChars (joinSlash (front ++ [m]))))
    (s0 ++ [m]) [h] = cleanStep (isRootedChars (joinSlash (front ++ [m])))
    (s0 ++ [m]) h from rfl]
  rw [cleanStep_push _ _ _ hh1 hh2 hh3]
  rw [joinSlash_snoc (s0 ++ [m]) h (by simp)]
  have hBne : joinSlash (s0 ++ [m]) ≠ [] := joinSlash_snoc_ne_nil s0 m hm1
  cases hr : isRootedChars (joinSlash (front ++ [m]))
  · simp only [Bool.false_eq_true, if_false]
    rw [if_neg (by simp), if_neg hBne, hslash, happ, happ]
    exact congrArg String.mk (by simp)
  · simp only [if_true]
    rw [hslash, happ, happ]
    exact congrArg String.mk (by simp)

/-- C8, counterexample: the hash is not always the final path component:
`filepath.Join` cleans the path, so hash ".." erases the month component
instead of appearing verbatim. -/
theorem buildArchivePath_hash_counterexample :
    buildArchivePath "base" "Jane" "Patreon" ⟨2024, 3⟩ ".." =
      "base/Jane - Patreon/2024" ∧
    buildArchivePath "base" "Jane" "Patreon" ⟨2024, 3⟩ ".." ≠
      "base/Jane - Patreon/2024/03 - March/.." := by
  constructor
  · decide
  · decide

/-- C8, amended: only the author and the category are sanitized; the hash is
passed to the path join unmodified, and whenever it is a normal path element
(non-empty, not "." or "..", containing no separator) it appears verbatim as
the final path component, even when it contains characters outside
`[A-Za-z0-9_-]`. -/
theorem buildArchivePath_hash_component (base author category : String)
    (t : GoTime) (hash : String)
    (h1 : hash ≠ "") (h2 : hash ≠ ".") (h3 : hash ≠ "..") (h4 : '/' ∉ hash.data) :
    buildArchivePath base author category t hash =
      goFilepathJoin [base,
        SanitizeForPath author ++ " - " ++ SanitizeForPath category,
        fmtPad 4 t.year, fmtPad 2 t.month ++ " - " ++ goMonthName t.month] ++
      "/" ++ hash := by
  have hh1 : hash.data ≠ [] := by
    intro hd
    exact h1 ((string_eq_iff_data hash "").mpr (by rw [hd]))
  have hh2 : hash.data ≠ ['.'] := by
    intro hd
    exact h2 ((string_eq_iff_data hash ".").mpr (by rw [hd]))
  have hh3 : hash.data ≠ ['.', '.'] := by
    intro hd
    exact h3 ((string_eq_iff_data hash "..").mpr (by rw [hd]))
  have hmid4 : '/' ∉ (SanitizeForPath author ++ " - " ++
      SanitizeForPath category).data := by
    rw [string_data_append, string_data_append]
    intro hmem
    rcases List.mem_append.mp hmem with hmem2 | hmem2
    · rcases List.mem_append.mp hmem2 with hmem3 | hmem3
      · exact sanitize_no_slash author hmem3
      · revert hmem3
        decide
    · exact sanitize_no_slash category hmem2
  have hmidne : (SanitizeForPath author ++ " - " ++
      SanitizeForPath category).data ≠ [] := by
    rw [string_data_append, string_data_append]
    intro hnil
    rcases List.append_eq_nil.mp hnil with ⟨hl, -⟩
    rcases List.append_eq_nil.mp hl with ⟨-, hmid⟩
    exact absurd hmid (by decide)
  have hmidne' : SanitizeForPath author ++ " - " ++ SanitizeForPath category ≠ "" := by
    intro hs
    exact hmidne ((string_eq_iff_data _ "").mp hs ▸ rfl)
  have hyearne : fmtPad 4 t.year ≠ "" := by
    intro hs
    exact fmtPad_ne_nil 4 t.year ((string_eq_iff_data _ "").mp hs ▸ rfl)
  have hmondata : (fmtPad 2 t.month ++ " - " ++ goMonthName t.month).data =
      ((fmtPad 2 t.month).data ++ [' ', '-', ' ']) ++ (goMonthName t.month).data := by
    rw [string_data_append, string_data_append]
  have hmonlen : 4 ≤ (fmtPad 2 t.month ++ " - " ++ goMonthName t.month).data.length := by
    rw [hmondata]
    have := List.length_pos.mpr (fmtPad_ne_nil 2 t.month)
    simp only [List.length_append, List.length_cons, List.length_nil]
    omega
  have hmon1 : (fmtPad 2 t.month ++ " - " ++ goMonthName t.month).data ≠ [] := by
    intro hd
    rw [hd] at hmonlen
    simp at hmonlen
  have hmon2 : (fmtPad 2 t.month ++ " - " ++ goMonthName t.month).data ≠ ['.'] := by
    intro hd
    rw [hd] at hmonlen
    simp at hmonlen
  have hmon3 : (fmtPad 2 t.month ++ " - " ++ goMonthName t.month).data ≠ ['.', '.'] := by
    intro hd
    rw [hd] at hmonlen
    simp at hmonlen
  have hmon4 : '/' ∉ (fmtPad 2 t.month ++ " - " ++ goMonthName t.month).data := by
    rw [hmondata]
    intro hmem
    rcases List.mem_append.mp hmem with hmem2 | hmem2
    · rcases List.mem_append.mp hmem2 with hmem3 | hmem3
      · exact absurd (fmtPad_digits 2 t.month '/' hmem3) (by decide)
      · revert hmem3
        decide
    · exact goMonthName_no_slash t.month hmem2
  have hmonne : fmtPad 2 t.month ++ " - " ++ goMonthName t.month ≠ "" := by
    intro hs
    exact hmon1 ((string_eq_iff_data _ "").mp hs ▸ rfl)
  by_cases hbase : base = ""
  · have hfilter : [base,
        SanitizeForPath author ++ " - " ++ SanitizeForPath category,
        fmtPad 4 t.year, fmtPad 2 t.month ++ " - " ++ goMonthName t.month,
        hash].filter (fun e => e ≠ "") =
        [SanitizeForPath author ++ " - " ++ SanitizeForPath category,
         fmtPad 4 t.year, fmtPad 2 t.month ++ " - " ++ goMonthName t.month,
         hash] := by
      simp [hbase, hmidne', hyearne, hmonne, h1]
    have hfilter2 : [base,
        SanitizeForPath author ++ " - " ++ SanitizeForPath category,
        fmtPad 4 t.year, fmtPad 2 t.month ++ " - " ++ goMonthName t.month].filter
          (fun e => e ≠ "") =
        [SanitizeForPath author ++ " - " ++ SanitizeForPath category,
         fmtPad 4 t.year, fmtPad 2 t.month ++ " - " ++ goMonthName t.month] := by
      simp [hbase, hmidne', hyearne, hmonne]
    show goFilepathJoin _ = _
    simp only [goFilepathJoin, hfilter, hfilter2, List.isEmpty_cons, List.map]
    rw [show ([(SanitizeForPath author ++ " - " ++ SanitizeForPath category).data,
      (fmtPad 4 t.year).data,
      (fmtPad 2 t.month ++ " - " ++ goMonthName t.month).data, hash.data] :
        List (List Char)) =
      ([(SanitizeForPath author ++ " - " ++ SanitizeForPath category).data,
        (fmtPad 4 t.year).data] ++
       [(fmtPad 2 t.month ++ " - " ++ goMonthName t.month).data]) ++ [hash.data]
      from by simp]
    rw [goCleanChars_join_snoc _ _ _ hmon1 hmon2 hmon3 hmon4 hh1 hh2 hh3 h4
      (by simp [hmidne])]
    rw [show ([(SanitizeForPath author ++ " - " ++ SanitizeForPath category).data,
        (fmtPad 4 t.year).data] ++
       [(fmtPad 2 t.month ++ " - " ++ goMonthName t.month).data]) =
      [(SanitizeForPath author ++ " - " ++ SanitizeForPath category).data,
       (fmtPad 4 t.year).data,
       (fmtPad 2 t.month ++ " - " ++ goMonthName t.month).data] from by simp]
    rw [show String.mk hash.data = hash from rfl]
    simp
  · have hfilter : [base,
        SanitizeForPath author ++ " - " ++ SanitizeForPath category,
        fmtPad 4 t.year, fmtPad 2 t.month ++ " - " ++ goMonthName t.month,
        hash].filter (fun e => e ≠ "") =
        [base, SanitizeForPath author ++ " - " ++ SanitizeForPath category,
         fmtPad 4 t.year, fmtPad 2 t.month ++ " - " ++ goMonthName t.month,
         hash] := by
      simp [hbase, hmidne', hyearne, hmonne, h1]
    have hfilter2 : [base,
        SanitizeForPath author ++ " - " ++ SanitizeForPath category,
        fmtPad 4 t.year, fmtPad 2 t.month ++ " - " ++ goMonthName t.month].filter
          (fun e => e ≠ "") =
        [base, SanitizeForPath author ++ " - " ++ SanitizeForPath category,
         fmtPad 4 t.year, fmtPad 2 t.month ++ " - " ++ goMonthName t.month] := by
      simp [hbase, hmidne', hyearne, hmonne]
    have hbasene : base.data ≠ [] := by
      intro hd
      exact hbase ((string_eq_iff_data base "").mpr (by rw [hd]))
    show goFilepathJoin _ = _
    simp only [goFilepathJoin, hfilter, hfilter2, List.isEmpty_cons, List.map]
    rw [show ([base.data,
      (SanitizeForPath author ++ " - " ++ SanitizeForPath category).data,
      (fmtPad 4 t.year).data,
      (fmtPad 2 t.month ++ " - " ++ goMonthName t.month).data, hash.data] :
        List (List Char)) =
      ([base.data,
        (SanitizeForPath author ++ " - " ++ SanitizeForPath category).data,
        (fmtPad 4 t.year).data] ++
       [(fmtPad 2 t.month ++ " - " ++ goMonthName t.month).data]) ++ [hash.data]
      from by simp]
    rw [goCleanChars_join_snoc _ _ _ hmon1 hmon2 hmon3 hmon4 hh1 hh2 hh3 h4
      (by simpa using hbasene)]
    rw [show ([base.data,
        (SanitizeForPath author ++ " - " ++ SanitizeForPath category).data,
        (fmtPad 4 t.year).data] ++
       [(fmtPad 2 t.month ++ " - " ++ goMonthName t.month).data]) =
      [base.data,
       (SanitizeForPath author ++ " - " ++ SanitizeForPath category).data,
       (fmtPad 4 t.year).data,
       (fmtPad 2 t.month ++ " - " ++ goMonthName t.month).data] from by simp]
    rw [show String.mk hash.data = hash from rfl]
    simp

/-- Witness for C8: a hash containing '!' and '(' (outside the sanitizer's
kept class) survives verbatim as the final component. -/
theorem buildArchivePath_hash_component_witness :
    buildArchivePath "base" "Jane" "Patreon" ⟨2024, 3⟩ "x!(y)" =
      goFilepathJoin ["base",
        SanitizeForPath "Jane" ++ " - " ++ SanitizeForPath "Patreon",
        fmtPad 4 (2024 : Nat), fmtPad 2 (3 : Nat) ++ " - " ++ goMonthName 3] ++
      "/" ++ "x!(y)" :=
  buildArchivePath_hash_component "base" "Jane" "Patreon" ⟨2024, 3⟩ "x!(y)"
    (by decide) (by decide) (by decide) (by decide)

end LewdArchive
